import Mathlib

/-!
Shallow embedding of the Omni Engine memory-bridge core
(`src/modules/memory_bridge/` and `src/modules/operator.py`).

Python dictionaries are modelled as association lists that preserve the
insertion-order / replace-in-place semantics of CPython dicts; Python
datetimes are modelled by `Datetime` below, carrying an optional UTC
offset so that the naive/aware distinction (and the `TypeError` raised
when the two are compared) is visible; code that can raise returns
`Except String`.
-/

set_option maxRecDepth 10000

/-- Whitespace characters stripped by Python `str.strip()` (ASCII subset). -/
def isSpaceChar (c : Char) : Bool :=
  c = ' ' || c = '\t' || c = '\n' || c = '\r' || c = '\x0b' || c = '\x0c'

/-- Python `str.strip()` on the underlying character list. -/
def stripList (l : List Char) : List Char :=
  ((l.dropWhile isSpaceChar).reverse.dropWhile isSpaceChar).reverse

/-- Python `str.strip()`. -/
def pyStrip (s : String) : String :=
  ⟨stripList s.data⟩

/-- Model of `datetime.datetime`: `tzinfo = none` means a naive datetime;
for aware datetimes `value` is the UTC instant the datetime denotes, so
comparison of two aware datetimes is comparison of `value`. -/
structure Datetime where
  tzinfo : Option Int
  value : Int
deriving DecidableEq, Repr

/-- Python's `d.tzinfo is None` test (`utcoffset` is folded into `tzinfo`). -/
def Datetime.isNaive (d : Datetime) : Bool :=
  d.tzinfo.isNone

/-- Python `a >= b` on datetimes: raises `TypeError` when exactly one side is
naive, otherwise compares the instants. -/
def dtGE (a b : Datetime) : Except String Bool :=
  if a.isNaive != b.isNaive then
    .error "cannot compare offset-naive and offset-aware datetimes"
  else
    .ok (b.value ≤ a.value)

/-- Python `dict.get(k)` on an insertion-ordered association list. -/
def pyGet {β : Type} (m : List (String × β)) (k : String) : Option β :=
  match m with
  | [] => none
  | (k', v) :: rest => if k' = k then some v else pyGet rest k

/-- Python `dict.get(k, d)`. -/
def pyGetD {β : Type} (m : List (String × β)) (k : String) (d : β) : β :=
  (pyGet m k).getD d

/-- Python `dict[k] = v`: replace in place when the key exists, else append. -/
def pySet {β : Type} (m : List (String × β)) (k : String) (v : β) : List (String × β) :=
  match m with
  | [] => [(k, v)]
  | (k', v') :: rest => if k' = k then (k, v) :: rest else (k', v') :: pySet rest k v

/-- Python `dict.setdefault(k, d)`: returns the updated dict and the value now
stored under `k`. -/
def pySetdefault {β : Type} (m : List (String × β)) (k : String) (d : β) :
    List (String × β) × β :=
  match pyGet m k with
  | some v => (m, v)
  | none => (m ++ [(k, d)], d)

/-- Python `k in dict`. -/
def dictContains {β : Type} (m : List (String × β)) (k : String) : Bool :=
  m.any (fun p => p.1 = k)

/-- `modules/memory_bridge/entry.py`: `MemoryEntry` dataclass. -/
structure MemoryEntry where
  layer : String
  content : String
  source : String
  timestamp : Datetime
deriving DecidableEq, Repr

/-- `modules/memory_bridge/layer.py`: `MemoryLayer` — name plus entries in
insertion order. -/
structure MemoryLayer where
  name : String
  entries : List MemoryEntry
deriving DecidableEq, Repr

/-- `MemoryLayer.add`: raises `ValueError("Entry layer mismatch")` when the
entry's layer differs from the layer's name, else appends. -/
def MemoryLayer.add (l : MemoryLayer) (e : MemoryEntry) : Except String MemoryLayer :=
  if e.layer ≠ l.name then .error "Entry layer mismatch"
  else .ok { l with entries := l.entries ++ [e] }

/-- `MemoryLayer.all`: the stored entries in insertion order. -/
def MemoryLayer.all (l : MemoryLayer) : List MemoryEntry :=
  l.entries

/-- The list comprehension in `MemoryLayer.query`: keeps entries with
`entry.timestamp >= since`, raising at the first naive/aware mixed
comparison, left to right. -/
def queryFilter (es : List MemoryEntry) (since : Datetime) :
    Except String (List MemoryEntry) :=
  match es with
  | [] => .ok []
  | e :: rest => do
      let keep ← dtGE e.timestamp since
      let tail ← queryFilter rest since
      .ok (if keep then e :: tail else tail)

/-- `MemoryLayer.query`: `since = none` delegates to `all`; a naive `since`
raises `ValueError`; otherwise filters by `timestamp >= since` preserving
insertion order. -/
def MemoryLayer.query (l : MemoryLayer) (since : Option Datetime) :
    Except String (List MemoryEntry) :=
  match since with
  | none => .ok l.all
  | some s =>
      if s.isNaive then .error "'since' must be timezone-aware."
      else queryFilter l.entries s

/-- `modules/memory_bridge/catalog.py`: `FunctionSpec` dataclass (mappings are
kept as ordered pair lists). -/
structure FunctionSpec where
  name : String
  description : String
  inputs : List (String × String)
  outputs : List (String × String)
  tags : List String
deriving DecidableEq, Repr

/-- `FunctionSpec.__post_init__`: strips the name, raising when the stripped
name or the stripped description is empty; the stored name is the stripped
one (the description is stored unstripped). -/
def FunctionSpec.make (name description : String)
    (inputs outputs : List (String × String)) (tags : List String) :
    Except String FunctionSpec :=
  if pyStrip name = "" then .error "Function name cannot be empty."
  else if pyStrip description = "" then .error "Function description cannot be empty."
  else .ok ⟨pyStrip name, description, inputs, outputs, tags⟩

/-- `McpCatalog`: a Python dict from spec name to spec. -/
structure McpCatalog where
  functions : List (String × FunctionSpec)
deriving DecidableEq, Repr

/-- `McpCatalog.register`: raises on a duplicate name unless `replace`;
otherwise `self._functions[spec.name] = spec`. -/
def McpCatalog.register (c : McpCatalog) (spec : FunctionSpec) (replace : Bool) :
    Except String McpCatalog :=
  if dictContains c.functions spec.name && !replace then
    .error ("Function '" ++ spec.name ++ "' is already registered.")
  else
    .ok ⟨pySet c.functions spec.name spec⟩

/-- `McpCatalog.get` without the raising wrapper: dict lookup. -/
def McpCatalog.find (c : McpCatalog) (name : String) : Option FunctionSpec :=
  pyGet c.functions name

/-- `McpCatalog.describe`: the registered specs in dict-value order
(`to_dict` serialization is faithful, so specs stand in for their dicts). -/
def McpCatalog.describe (c : McpCatalog) : List FunctionSpec :=
  c.functions.map (fun p => p.2)

/-- `modules/memory_bridge/witness.py`: `WitnessNetwork` — append-only log and
subscriber list. Nodes are identified by `Nat` ids modelling Python object
identity (`is` comparison); their `apply_update` inboxes live in
`BridgeState.inbox` below. -/
structure WitnessNetwork where
  log : List MemoryEntry
  subscribers : List Nat
deriving DecidableEq, Repr

/-- Delivery loop of `WitnessNetwork.broadcast`: each subscriber that `is` not
the origin receives the entry in registration order. -/
def deliver (subs : List Nat) (inbox : Nat → List MemoryEntry)
    (entry : MemoryEntry) (origin : Option Nat) : Nat → List MemoryEntry :=
  subs.foldl
    (fun f sid =>
      if origin = some sid then f
      else fun j => if j = sid then f j ++ [entry] else f j)
    inbox

/-- `WitnessNetwork.broadcast`: records the entry unconditionally, then
delivers it to every subscriber except the origin. -/
def WitnessNetwork.broadcast (w : WitnessNetwork) (inbox : Nat → List MemoryEntry)
    (entry : MemoryEntry) (origin : Option Nat) :
    WitnessNetwork × (Nat → List MemoryEntry) :=
  ({ w with log := w.log ++ [entry] },
   deliver w.subscribers inbox entry origin)

/-- `modules/memory_bridge/node.py`: an `IntelligenceNode` for one cycle — its
id plus what `fetch_updates()` returns. -/
structure IntelligenceNode where
  id : Nat
  updates : List MemoryEntry

/-- Full state of a `MemoryBridge` (layers, catalog, witness network) together
with the inboxes of the nodes it broadcasts to. -/
structure BridgeState where
  layers : List (String × MemoryLayer)
  catalog : McpCatalog
  witnesses : WitnessNetwork
  inbox : Nat → List MemoryEntry

/-- A freshly constructed `MemoryBridge()`: no layers, empty catalog, fresh
witness network, all node inboxes empty. -/
def freshBridge : BridgeState :=
  { layers := []
    catalog := ⟨[]⟩
    witnesses := ⟨[], []⟩
    inbox := fun _ => [] }

/-- One entry of `FusionLoop.cycle`'s inner loop:
`layer = self.layers.setdefault(entry.layer, MemoryLayer(entry.layer))`,
`layer.add(entry)`, `self.witnesses.broadcast(entry, origin=node)`.
Note the catalog is never touched. -/
def fusionStep (s : BridgeState) (nodeId : Nat) (entry : MemoryEntry) :
    Except String BridgeState := do
  let (layers1, layer) := pySetdefault s.layers entry.layer ⟨entry.layer, []⟩
  let layer' ← layer.add entry
  let layers2 := pySet layers1 entry.layer layer'
  let (w, inbox) := s.witnesses.broadcast s.inbox entry (some nodeId)
  .ok { s with layers := layers2, witnesses := w, inbox := inbox }

/-- `modules/memory_bridge/fusion.py`: `FusionLoop.cycle` — for each node, for
each fetched entry, run `fusionStep`. -/
def FusionLoop.cycle (s : BridgeState) (nodes : List IntelligenceNode) :
    Except String BridgeState :=
  nodes.foldlM (fun s node => node.updates.foldlM (fun s e => fusionStep s node.id e) s) s

/-- `MemoryBridge._register_layer_spec`: build the auto-generated
`FunctionSpec` for layer `name` and register it with `replace=True`. -/
def registerLayerSpec (s : BridgeState) (name : String) : Except String BridgeState := do
  let spec ← FunctionSpec.make
    ("memory.fetch_" ++ name)
    ("Retrieve stored entries from the '" ++ name ++ "' memory layer.")
    [("since", "Optional ISO-8601 timestamp used to filter results.")]
    [("entries",
      "List of serialized memory entries with layer, source, content, and timestamp.")]
    ["memory", name]
  let catalog ← s.catalog.register spec true
  .ok { s with catalog := catalog }

/-- `MemoryBridge.register_layer`: raises `ValueError` on an
empty/whitespace-only name; returns the existing layer unchanged, or creates
a fresh one and registers its catalog spec. -/
def MemoryBridge.registerLayer (s : BridgeState) (name : String) :
    Except String (MemoryLayer × BridgeState) :=
  if pyStrip name = "" then .error "Layer name cannot be empty."
  else
    match pyGet s.layers name with
    | some layer => .ok (layer, s)
    | none => do
        let layer : MemoryLayer := ⟨name, []⟩
        let s1 := { s with layers := pySet s.layers name layer }
        let s2 ← registerLayerSpec s1 name
        .ok (layer, s2)

/-- `modules/connectors/__init__.py`: a `Connector` for one run — its name and
what `list(connector.gather())` yields (`.error` models `gather` raising). -/
structure Connector where
  name : String
  gather : Except String (List MemoryEntry)

/-- `modules/operator.py`: `ConnectorAudit` dataclass. -/
structure ConnectorAudit where
  name : String
  produced : Nat
  layerCounts : List (String × Nat)
  alerts : List String
deriving DecidableEq, Repr

/-- `modules/operator.py`: `AuditReport` dataclass. -/
structure AuditReport where
  timestamp : Datetime
  connectors : List ConnectorAudit
deriving DecidableEq, Repr

/-- Inner entry loop of `OperatorCore.run_cycle`: for each entry,
`layer = self.bridge.register_layer(entry.layer)`, `layer.add(entry)`,
bump `layer_counts`, and collect `ingestion_alerts` contents. A raised
exception stops the loop but keeps the mutations made so far. -/
def ingestEntries (s : BridgeState) (counts : List (String × Nat))
    (alerts : List String) :
    List MemoryEntry → BridgeState × Except String (List (String × Nat) × List String)
  | [] => (s, .ok (counts, alerts))
  | e :: rest =>
    match MemoryBridge.registerLayer s e.layer with
    | .error msg => (s, .error msg)
    | .ok (layer, s1) =>
      match layer.add e with
      | .error msg => (s1, .error msg)
      | .ok layer' =>
        let s2 := { s1 with layers := pySet s1.layers e.layer layer' }
        let counts' := pySet counts e.layer (pyGetD counts e.layer 0 + 1)
        let alerts' := if e.layer = "ingestion_alerts" then alerts ++ [e.content] else alerts
        ingestEntries s2 counts' alerts' rest

/-- Connector loop of `OperatorCore.run_cycle`: `entries = list(connector.gather())`
(raising aborts the run, keeping earlier connectors' ingestions), then the
entry loop, then append the `ConnectorAudit`. -/
def runConnectors (s : BridgeState) (audits : List ConnectorAudit) :
    List Connector → BridgeState × Except String (List ConnectorAudit)
  | [] => (s, .ok audits)
  | c :: rest =>
    match c.gather with
    | .error msg => (s, .error msg)
    | .ok entries =>
      match ingestEntries s [] [] entries with
      | (s', .error msg) => (s', .error msg)
      | (s', .ok (counts, alerts)) =>
        runConnectors s' (audits ++ [⟨c.name, entries.length, counts, alerts⟩]) rest

/-- `OperatorCore.run_cycle`: run every registered connector in order and wrap
the audits in a report stamped `now` (`datetime.now(timezone.utc)`). -/
def runCycle (now : Datetime) (s : BridgeState) (connectors : List Connector) :
    BridgeState × Except String AuditReport :=
  match runConnectors s [] connectors with
  | (s', .error msg) => (s', .error msg)
  | (s', .ok audits) => (s', .ok ⟨now, audits⟩)

/-- The zero-output recommendation string of
`OperatorCore.generate_recommendations`. -/
def zeroMsg (name : String) : String :=
  "Connector '" ++ name ++ "' produced no entries. Verify its data sources."

/-- The alert recommendation string of `OperatorCore.generate_recommendations`. -/
def alertMsg (name : String) (n : Nat) : String :=
  "Connector '" ++ name ++ "' emitted " ++ toString n ++ " alerts that require review."

/-- The all-nominal recommendation string. -/
def nominalMsg : String :=
  "All connectors are operating nominally. Continue monitoring throughput."

/-- Per-audit appends of the loop in `OperatorCore.generate_recommendations`. -/
def auditRecs (audit : ConnectorAudit) : List String :=
  (if audit.produced = 0 then [zeroMsg audit.name] else []) ++
  (if audit.alerts.isEmpty then [] else [alertMsg audit.name audit.alerts.length])

/-- `OperatorCore.generate_recommendations`: the loop's appends in audit
order, falling back to the single all-nominal message. -/
def generateRecommendations (report : AuditReport) : List String :=
  let recommendations := (report.connectors.map auditRecs).flatten
  if recommendations.isEmpty then [nominalMsg] else recommendations

deriving instance DecidableEq for Except

/-- Initial state for the fusion scenario: fresh bridge whose witness network
has nodes `a` and `b` registered, all inboxes empty. -/
def c3Init (a b : Nat) : BridgeState :=
  { layers := []
    catalog := ⟨[]⟩
    witnesses := ⟨[], [a, b]⟩
    inbox := fun _ => [] }

/-- The auto-generated catalog spec stored for layer `name` (note the
`__post_init__` strip applied to the concatenated name). -/
def fetchSpec (name : String) : FunctionSpec :=
  { name := pyStrip ("memory.fetch_" ++ name)
    description := "Retrieve stored entries from the '" ++ name ++ "' memory layer."
    inputs := [("since", "Optional ISO-8601 timestamp used to filter results.")]
    outputs := [("entries",
      "List of serialized memory entries with layer, source, content, and timestamp.")]
    tags := ["memory", name] }

/-- States reachable from a fresh bridge by `register_layer` and fusion
cycles, as the claim quantifies them. -/
inductive Reachable : BridgeState → Prop
  | fresh : Reachable freshBridge
  | register (s : BridgeState) (n : String) (l : MemoryLayer) (s' : BridgeState) :
      Reachable s → MemoryBridge.registerLayer s n = .ok (l, s') → Reachable s'
  | sync (s : BridgeState) (nodes : List IntelligenceNode) (s' : BridgeState) :
      Reachable s → FusionLoop.cycle s nodes = .ok s' → Reachable s'

/-- Reachability restricted to fusion cycles whose entries only reference
layers that already exist (no lazy layer creation). -/
inductive ReachableSynced : BridgeState → Prop
  | fresh : ReachableSynced freshBridge
  | register (s : BridgeState) (n : String) (l : MemoryLayer) (s' : BridgeState) :
      ReachableSynced s → MemoryBridge.registerLayer s n = .ok (l, s') →
      ReachableSynced s'
  | sync (s : BridgeState) (nodes : List IntelligenceNode) (s' : BridgeState) :
      ReachableSynced s →
      (∀ node ∈ nodes, ∀ e ∈ node.updates, dictContains s.layers e.layer = true) →
      FusionLoop.cycle s nodes = .ok s' → ReachableSynced s'

/-- The catalog-synchronization invariant: every layer name in the layer map
has its (stripped) auto-generated spec in the catalog. -/
def layerSynced (s : BridgeState) : Prop :=
  ∀ p ∈ s.layers,
    dictContains s.catalog.functions (pyStrip ("memory.fetch_" ++ p.1)) = true

/-- The state reached from a fresh bridge by one fusion cycle where node `0`
fetches a single entry on the hitherto-unknown layer `"alpha"`. -/
def c2CexState : BridgeState :=
  match FusionLoop.cycle freshBridge [⟨0, [⟨"alpha", "c", "s", ⟨some 0, 0⟩⟩]⟩] with
  | .ok s => s
  | .error _ => freshBridge

/-- The state reached from a fresh bridge by one `register_layer("alpha")`. -/
def c2WitnessState : BridgeState :=
  match MemoryBridge.registerLayer freshBridge "alpha" with
  | .ok p => p.2
  | .error _ => freshBridge

/-- Well-formedness of the layer dict: every stored layer is keyed by its own
name (which `register_layer` and the fusion loop maintain). -/
def layersWF (s : BridgeState) : Prop :=
  ∀ p ∈ s.layers, p.2.name = p.1

/-- The entries currently stored under layer name `n` (empty when the layer
does not exist yet). -/
def entriesOf (s : BridgeState) (n : String) : List MemoryEntry :=
  match pyGet s.layers n with
  | some l => l.entries
  | none => []

/-- A connector that gathers successfully, described by its name and its
entries. -/
def mkConn (p : String × List MemoryEntry) : Connector :=
  ⟨p.1, .ok p.2⟩

/-- The state after `register_layer("evidence ")` (trailing blank) on a
fresh bridge. -/
def c5CexState : BridgeState :=
  match MemoryBridge.registerLayer freshBridge "evidence " with
  | .ok p => p.2
  | .error _ => freshBridge

section Helpers

/-- Members of `dropWhile`'s result are members of the original list. -/
theorem mem_of_mem_dropWhile' {α : Type} {p : α → Bool} {a : α} {l : List α}
    (h : a ∈ l.dropWhile p) : a ∈ l := by
  induction l with
  | nil => simpa using h
  | cons hd tl ih =>
    by_cases hp : p hd
    · rw [List.dropWhile_cons_of_pos hp] at h
      exact List.mem_cons.mpr (Or.inr (ih h))
    · rw [List.dropWhile_cons_of_neg hp] at h
      exact h

/-- `pyStrip` yields the empty string exactly when every character is
whitespace. -/
theorem pyStrip_eq_empty_iff (s : String) :
    pyStrip s = "" ↔ s.data.all isSpaceChar := by
  have hmk : pyStrip s = "" ↔ stripList s.data = [] := by
    unfold pyStrip
    constructor
    · intro h
      have := congrArg String.data h
      simpa using this
    · intro h
      simp [h]
  rw [hmk]
  unfold stripList
  rw [List.reverse_eq_nil_iff, List.dropWhile_eq_nil_iff]
  constructor
  · intro h
    rw [List.all_eq_true]
    intro a ha
    by_cases hp : isSpaceChar a
    · exact hp
    · have hmem : a ∈ s.data.dropWhile isSpaceChar := by
        have hsplit := List.takeWhile_append_dropWhile (p := isSpaceChar) (l := s.data)
        rw [← hsplit] at ha
        rcases List.mem_append.mp ha with h1 | h2
        · exact absurd (List.mem_takeWhile_imp h1) hp
        · exact h2
      exact absurd (h a (List.mem_reverse.mpr hmem)) hp
  · intro h a ha
    rw [List.all_eq_true] at h
    exact h a (mem_of_mem_dropWhile' (List.mem_reverse.mp ha))

/-- Stripping `"memory.fetch_" ++ n` never yields the empty string. -/
theorem pyStrip_fetch_ne_empty (n : String) : pyStrip ("memory.fetch_" ++ n) ≠ "" := by
  intro h
  rw [pyStrip_eq_empty_iff] at h
  rw [List.all_eq_true] at h
  have hm : 'm' ∈ ("memory.fetch_" ++ n).data := by
    rw [String.data_append]
    exact List.mem_append.mpr (Or.inl (by decide))
  have := h 'm' hm
  simp [isSpaceChar] at this

theorem pyGet_pySet_self {β : Type} (m : List (String × β)) (k : String) (v : β) :
    pyGet (pySet m k v) k = some v := by
  induction m with
  | nil => simp [pySet, pyGet]
  | cons p rest ih =>
    by_cases h : p.1 = k <;> simp [pySet, pyGet, h, ih]

theorem pyGet_pySet_ne {β : Type} (m : List (String × β)) {k k' : String} (v : β)
    (h : k ≠ k') : pyGet (pySet m k v) k' = pyGet m k' := by
  induction m with
  | nil => simp [pySet, pyGet, h]
  | cons p rest ih =>
    by_cases hp : p.1 = k
    · simp [pySet, pyGet, hp, h, Ne.symm h]
    · by_cases hp' : p.1 = k' <;> simp [pySet, pyGet, hp, hp', ih, Ne.symm h]

theorem dictContains_cons {β : Type} (p : String × β) (rest : List (String × β))
    (k : String) :
    dictContains (p :: rest) k = (decide (p.1 = k) || dictContains rest k) := by
  simp [dictContains]

theorem dictContains_iff_pyGet {β : Type} (m : List (String × β)) (k : String) :
    dictContains m k = true ↔ pyGet m k ≠ none := by
  induction m with
  | nil => simp [dictContains, pyGet]
  | cons p rest ih =>
    by_cases h : p.1 = k <;> simp [dictContains, pyGet, h] at ih ⊢ <;> exact ih

theorem dictContains_pySet_self {β : Type} (m : List (String × β)) (k : String) (v : β) :
    dictContains (pySet m k v) k = true := by
  rw [dictContains_iff_pyGet, pyGet_pySet_self]
  simp

theorem dictContains_pySet_mono {β : Type} (m : List (String × β)) {k : String}
    (k' : String) (v : β) (h : dictContains m k = true) :
    dictContains (pySet m k' v) k = true := by
  by_cases hk : k' = k
  · subst hk; exact dictContains_pySet_self m k' v
  · rw [dictContains_iff_pyGet] at h ⊢
    rw [pyGet_pySet_ne m v hk]
    exact h

/-- `pySet` on an absent key appends. -/
theorem pySet_absent {β : Type} (m : List (String × β)) {k : String} (v : β)
    (h : pyGet m k = none) : pySet m k v = m ++ [(k, v)] := by
  induction m with
  | nil => simp [pySet]
  | cons p rest ih =>
    by_cases hp : p.1 = k
    · simp [pyGet, hp] at h
    · simp [pyGet, hp] at h
      simp [pySet, hp, ih h]

/-- The key sequence of `pySet`: unchanged when the key exists, the key
appended otherwise. -/
theorem map_fst_pySet {β : Type} (m : List (String × β)) (k : String) (v : β) :
    (pySet m k v).map Prod.fst =
      if dictContains m k then m.map Prod.fst else m.map Prod.fst ++ [k] := by
  induction m with
  | nil => simp [pySet, dictContains]
  | cons p rest ih =>
    rw [dictContains_cons]
    by_cases hp : p.1 = k
    · simp [pySet, hp]
    · simp only [pySet, hp, if_false, List.map_cons, ih, decide_eq_true_eq]
      by_cases hc : dictContains rest k <;> simp [hp, hc]

theorem dictContains_eq_mem_keys {β : Type} (m : List (String × β)) (k : String) :
    dictContains m k = true ↔ k ∈ m.map Prod.fst := by
  induction m with
  | nil => simp [dictContains]
  | cons p rest ih =>
    rw [dictContains_cons]
    simp only [List.map_cons, List.mem_cons]
    rw [Bool.or_eq_true, decide_eq_true_eq]
    constructor
    · rintro (h1 | h2)
      · exact Or.inl h1.symm
      · exact Or.inr (ih.mp h2)
    · rintro (h1 | h2)
      · exact Or.inl h1.symm
      · exact Or.inr (ih.mpr h2)

theorem keysNodup_pySet {β : Type} {m : List (String × β)} (k : String) (v : β)
    (h : (m.map Prod.fst).Nodup) : ((pySet m k v).map Prod.fst).Nodup := by
  rw [map_fst_pySet]
  by_cases hc : dictContains m k
  · simp [hc, h]
  · rw [if_neg hc, List.nodup_append]
    refine ⟨h, List.nodup_singleton k, ?_⟩
    intro a ha hb
    simp at hb
    exact hc ((dictContains_eq_mem_keys m k).mpr (hb ▸ ha))

/-- With no duplicate keys, the stored pairs for `k` after `pySet m k v`
number exactly one. -/
theorem count_pySet_self {β : Type} (m : List (String × β)) (k : String) (v : β)
    (h : (m.map Prod.fst).Nodup) :
    ((pySet m k v).filter (fun p => p.1 = k)).length = 1 := by
  induction m with
  | nil => simp [pySet, List.filter]
  | cons p rest ih =>
    simp only [List.map_cons, List.nodup_cons] at h
    by_cases hp : p.1 = k
    · have hall : ∀ q ∈ rest, ¬(q.1 = k) := by
        intro q hq hqk
        exact h.1 (hp ▸ hqk ▸ List.mem_map.mpr ⟨q, hq, rfl⟩)
      have hfil : rest.filter (fun q => q.1 = k) = [] := by
        rw [List.filter_eq_nil_iff]
        intro q hq
        simpa using hall q hq
      simp [pySet, hp, List.filter, hfil]
    · simp only [pySet, hp, if_false]
      rw [List.filter_cons]
      simp only [hp, decide_eq_true_eq, if_false]
      exact ih h.2

end Helpers

/-- `queryFilter` on all-aware entries with an aware bound is the plain
filter by timestamp value. -/
theorem queryFilter_all_aware (es : List MemoryEntry) (t : Datetime)
    (ht : t.isNaive = false) (he : ∀ e ∈ es, e.timestamp.isNaive = false) :
    queryFilter es t = .ok (es.filter (fun e => t.value ≤ e.timestamp.value)) := by
  induction es with
  | nil => simp [queryFilter]
  | cons e rest ih =>
    have hnaive : e.timestamp.isNaive = false := he e (List.mem_cons_self e rest)
    have htail : queryFilter rest t =
        .ok (rest.filter (fun e => t.value ≤ e.timestamp.value)) :=
      ih (fun x hx => he x (List.mem_cons_of_mem e hx))
    rw [List.filter_cons]
    simp [queryFilter, dtGE, hnaive, ht, htail]
    by_cases hle : t.value ≤ e.timestamp.value <;>
      simp [hle, Bind.bind, Except.bind]

/-- Claim C4 (amended): `query(None)` equals `all()`; a naive `since` raises;
and for an aware `since` on a layer all of whose stored timestamps are
timezone-aware, `query` returns exactly the entries with `timestamp >= since`
in insertion order. The all-aware proviso is forced: comparing a naive stored
timestamp with an aware `since` raises (see the counterexample). -/
theorem c4_query_contract (l : MemoryLayer) :
    l.query none = .ok l.all ∧
    (∀ t : Datetime, t.isNaive = true →
      l.query (some t) = .error "'since' must be timezone-aware.") ∧
    (∀ t : Datetime, t.isNaive = false →
      (∀ e ∈ l.entries, e.timestamp.isNaive = false) →
      l.query (some t) = .ok (l.entries.filter (fun e => t.value ≤ e.timestamp.value))) := by
  refine ⟨rfl, ?_, ?_⟩
  · intro t ht
    simp [MemoryLayer.query, ht]
  · intro t ht he
    simp [MemoryLayer.query, ht]
    exact queryFilter_all_aware l.entries t ht he

/-- Witness for C4: a concrete aware query over aware entries keeps exactly
the late entry. -/
theorem c4_witness :
    MemoryLayer.query ⟨"L", [⟨"L", "old", "s", ⟨some 0, 1⟩⟩, ⟨"L", "new", "s", ⟨some 0, 9⟩⟩]⟩
      (some ⟨some 0, 5⟩) =
    .ok (((⟨"L", [⟨"L", "old", "s", ⟨some 0, 1⟩⟩, ⟨"L", "new", "s", ⟨some 0, 9⟩⟩]⟩ :
        MemoryLayer)).entries.filter
      (fun e => (⟨some 0, 5⟩ : Datetime).value ≤ e.timestamp.value)) :=
  (c4_query_contract _).2.2 _ rfl (by decide)

/-- Claim C4 counterexample: a layer storing one naive-timestamped entry,
queried with an aware `since`, raises the mixed-comparison error instead of
returning the matching subset the claim promises. -/
theorem c4_counterexample :
    MemoryLayer.query ⟨"L", [⟨"L", "c", "s", ⟨none, 7⟩⟩]⟩ (some ⟨some 0, 5⟩) =
      .error "cannot compare offset-naive and offset-aware datetimes" ∧
    MemoryLayer.query ⟨"L", [⟨"L", "c", "s", ⟨none, 7⟩⟩]⟩ (some ⟨some 0, 5⟩) ≠
      .ok [⟨"L", "c", "s", ⟨none, 7⟩⟩] := by
  constructor
  · rfl
  · decide

/-- Claim C10: constructing a `FunctionSpec` raises exactly when the name or
the description is empty or whitespace-only, and on success the stored name
is the input name with surrounding whitespace stripped. -/
theorem c10_function_spec_validation (name description : String)
    (inputs outputs : List (String × String)) (tags : List String) :
    ((∃ msg, FunctionSpec.make name description inputs outputs tags = .error msg) ↔
      (name.data.all isSpaceChar = true ∨ description.data.all isSpaceChar = true)) ∧
    (∀ spec, FunctionSpec.make name description inputs outputs tags = .ok spec →
      spec.name = pyStrip name) := by
  constructor
  · rw [← pyStrip_eq_empty_iff, ← pyStrip_eq_empty_iff]
    constructor
    · rintro ⟨msg, hmsg⟩
      by_cases h1 : pyStrip name = ""
      · exact Or.inl h1
      · by_cases h2 : pyStrip description = ""
        · exact Or.inr h2
        · simp [FunctionSpec.make, h1, h2] at hmsg
    · rintro (h | h)
      · exact ⟨"Function name cannot be empty.", by simp [FunctionSpec.make, h]⟩
      · by_cases h1 : pyStrip name = ""
        · exact ⟨"Function name cannot be empty.", by simp [FunctionSpec.make, h1]⟩
        · exact ⟨"Function description cannot be empty.", by
            simp [FunctionSpec.make, h1, h]⟩
  · intro spec hspec
    by_cases h1 : pyStrip name = ""
    · simp [FunctionSpec.make, h1] at hspec
    · by_cases h2 : pyStrip description = ""
      · simp [FunctionSpec.make, h1, h2] at hspec
      · simp [FunctionSpec.make, h1, h2] at hspec
        rw [← hspec]

/-- Witness for C10: a padded name is stored stripped. -/
theorem c10_witness :
    (⟨"f", "d", [], [], []⟩ : FunctionSpec).name = pyStrip " f " :=
  (c10_function_spec_validation " f " "d" [] [] []).2 ⟨"f", "d", [], [], []⟩ (by decide)

/-- The pair written by `pySet` is a member of the result. -/
theorem mem_pySet_self {β : Type} (m : List (String × β)) (k : String) (v : β) :
    (k, v) ∈ pySet m k v := by
  induction m with
  | nil => simp [pySet]
  | cons p rest ih =>
    by_cases hp : p.1 = k
    · simp [pySet, hp]
    · simp [pySet, hp]
      exact Or.inr ih

/-- Claim C6: registering a duplicate name without `replace` raises (the
raise precedes the dict write, so the catalog is untouched: the embedding's
error branch produces no new catalog); with `replace=True` it succeeds by
overwriting, after which lookup and `describe()` reflect the latest spec. -/
theorem c6_catalog_duplicate_registration (c : McpCatalog) (spec : FunctionSpec)
    (hdup : dictContains c.functions spec.name = true) :
    c.register spec false =
      .error ("Function '" ++ spec.name ++ "' is already registered.") ∧
    ∃ c', c.register spec true = .ok c' ∧
      c'.find spec.name = some spec ∧ spec ∈ c'.describe := by
  constructor
  · simp [McpCatalog.register, hdup]
  · refine ⟨⟨pySet c.functions spec.name spec⟩, ?_, ?_, ?_⟩
    · simp [McpCatalog.register]
    · simp [McpCatalog.find, pyGet_pySet_self]
    · exact List.mem_map.mpr ⟨(spec.name, spec), mem_pySet_self _ _ _, rfl⟩

/-- Witness for C6 at a concrete one-entry catalog and a revised spec. -/
theorem c6_witness :
    McpCatalog.register ⟨[("s", ⟨"s", "d", [], [], []⟩)]⟩ ⟨"s", "d2", [], [], []⟩ false =
      .error ("Function '" ++ "s" ++ "' is already registered.") ∧
    ∃ c', McpCatalog.register ⟨[("s", ⟨"s", "d", [], [], []⟩)]⟩ ⟨"s", "d2", [], [], []⟩ true =
        .ok c' ∧
      c'.find "s" = some ⟨"s", "d2", [], [], []⟩ ∧
      (⟨"s", "d2", [], [], []⟩ : FunctionSpec) ∈ c'.describe :=
  c6_catalog_duplicate_registration ⟨[("s", ⟨"s", "d", [], [], []⟩)]⟩
    ⟨"s", "d2", [], [], []⟩ (by decide)

/-- Strings produced for one audit appear in the final recommendation list. -/
theorem mem_generateRecommendations {report : AuditReport} {a : ConnectorAudit}
    {x : String} (ha : a ∈ report.connectors) (hx : x ∈ auditRecs a) :
    x ∈ generateRecommendations report := by
  have hflat : x ∈ (report.connectors.map auditRecs).flatten :=
    List.mem_flatten.mpr ⟨auditRecs a, List.mem_map.mpr ⟨a, ha, rfl⟩, hx⟩
  unfold generateRecommendations
  have hne : ((report.connectors.map auditRecs).flatten).isEmpty = false := by
    rcases List.isEmpty_eq_false_iff_exists_mem.mpr ⟨x, hflat⟩ with h
    exact h
  simp only [hne, Bool.false_eq_true, if_false]
  exact hflat

/-- Claim C7: `generate_recommendations` surfaces every zero-output connector,
every connector with alerts, emits exactly the single all-nominal message
when no connector triggers either condition, and is never empty. -/
theorem c7_recommendations_cover_conditions (report : AuditReport) :
    (∀ a ∈ report.connectors, a.produced = 0 →
      zeroMsg a.name ∈ generateRecommendations report) ∧
    (∀ a ∈ report.connectors, a.alerts ≠ [] →
      alertMsg a.name a.alerts.length ∈ generateRecommendations report) ∧
    ((∀ a ∈ report.connectors, a.produced ≠ 0 ∧ a.alerts = []) →
      generateRecommendations report = [nominalMsg]) ∧
    generateRecommendations report ≠ [] := by
  refine ⟨?_, ?_, ?_, ?_⟩
  · intro a ha hz
    exact mem_generateRecommendations ha (by simp [auditRecs, hz])
  · intro a ha halerts
    refine mem_generateRecommendations ha ?_
    have : a.alerts.isEmpty = false := by
      rw [List.isEmpty_eq_false_iff_exists_mem]
      exact List.exists_mem_of_ne_nil a.alerts halerts
    simp [auditRecs, this]
  · intro h
    have hflat : (report.connectors.map auditRecs).flatten = [] := by
      rw [List.flatten_eq_nil_iff]
      intro s hs
      rcases List.mem_map.mp hs with ⟨a, ha, rfl⟩
      have := h a ha
      simp [auditRecs, this.1, this.2]
    simp [generateRecommendations, hflat]
  · by_cases hflat : (report.connectors.map auditRecs).flatten = []
    · simp [generateRecommendations, hflat]
    · have hie : ((report.connectors.map auditRecs).flatten).isEmpty = false := by
        rw [List.isEmpty_eq_false_iff_exists_mem]
        exact List.exists_mem_of_ne_nil _ hflat
      unfold generateRecommendations
      simp only [hie, Bool.false_eq_true, if_false]
      exact hflat

/-- Witness for C7 on a report with one silent and one alerting connector. -/
theorem c7_witness :
    zeroMsg "A" ∈ generateRecommendations
      ⟨⟨some 0, 0⟩, [⟨"A", 0, [], []⟩, ⟨"B", 2, [("ingestion_alerts", 2)], ["x", "y"]⟩]⟩ ∧
    alertMsg "B" 2 ∈ generateRecommendations
      ⟨⟨some 0, 0⟩, [⟨"A", 0, [], []⟩, ⟨"B", 2, [("ingestion_alerts", 2)], ["x", "y"]⟩]⟩ :=
  ⟨(c7_recommendations_cover_conditions _).1 ⟨"A", 0, [], []⟩ (by decide) rfl,
   by
    have := (c7_recommendations_cover_conditions
      ⟨⟨some 0, 0⟩, [⟨"A", 0, [], []⟩, ⟨"B", 2, [("ingestion_alerts", 2)], ["x", "y"]⟩]⟩).2.1
      ⟨"B", 2, [("ingestion_alerts", 2)], ["x", "y"]⟩ (by decide) (by decide)
    simpa using this⟩

/-- Claim C3: with nodes `A` and `B` registered, `A` fetching `[e1, e2]` on
one layer and `B` fetching `[]`, a fusion cycle leaves the target layer
`[e1, e2]` in order, delivers nothing to `A` (origin-exclusion), delivers
`[e1, e2]` in order to `B`, and logs `[e1, e2]`. -/
theorem c3_fusion_cycle_scenario (a b : Nat) (e1 e2 : MemoryEntry)
    (hab : a ≠ b) (hl : e2.layer = e1.layer) :
    ∃ s', FusionLoop.cycle (c3Init a b) [⟨a, [e1, e2]⟩, ⟨b, []⟩] = .ok s' ∧
      pyGet s'.layers e1.layer = some ⟨e1.layer, [e1, e2]⟩ ∧
      s'.inbox a = [] ∧
      s'.inbox b = [e1, e2] ∧
      s'.witnesses.log = [e1, e2] := by
  simp only [FusionLoop.cycle, List.foldlM_cons, List.foldlM_nil, fusionStep, c3Init, hl]
  simp [pySetdefault, pyGet, pySet, MemoryLayer.add, WitnessNetwork.broadcast, deliver,
    hab, Ne.symm hab, hl, Bind.bind, Except.bind, pure, Except.pure]

/-- Witness for C3 at concrete ids and entries. -/
theorem c3_witness :
    ∃ s', FusionLoop.cycle (c3Init 0 1)
        [⟨0, [⟨"n", "c1", "s", ⟨some 0, 1⟩⟩, ⟨"n", "c2", "s", ⟨some 0, 2⟩⟩]⟩, ⟨1, []⟩] =
      .ok s' ∧
      pyGet s'.layers (⟨"n", "c1", "s", ⟨some 0, 1⟩⟩ : MemoryEntry).layer =
        some ⟨(⟨"n", "c1", "s", ⟨some 0, 1⟩⟩ : MemoryEntry).layer,
          [⟨"n", "c1", "s", ⟨some 0, 1⟩⟩, ⟨"n", "c2", "s", ⟨some 0, 2⟩⟩]⟩ ∧
      s'.inbox 0 = [] ∧
      s'.inbox 1 = [⟨"n", "c1", "s", ⟨some 0, 1⟩⟩, ⟨"n", "c2", "s", ⟨some 0, 2⟩⟩] ∧
      s'.witnesses.log = [⟨"n", "c1", "s", ⟨some 0, 1⟩⟩, ⟨"n", "c2", "s", ⟨some 0, 2⟩⟩] :=
  c3_fusion_cycle_scenario 0 1 ⟨"n", "c1", "s", ⟨some 0, 1⟩⟩ ⟨"n", "c2", "s", ⟨some 0, 2⟩⟩
    (by decide) rfl

/-- Nonemptiness of a strip, witnessed by one non-whitespace character. -/
theorem pyStrip_ne_empty_of_mem {c : Char} {s : String}
    (hc : isSpaceChar c = false) (hmem : c ∈ s.data) : pyStrip s ≠ "" := by
  intro h
  rw [pyStrip_eq_empty_iff, List.all_eq_true] at h
  have := h c hmem
  rw [hc] at this
  exact Bool.false_ne_true this

/-- `_register_layer_spec` always succeeds and writes `fetchSpec name` under
its stripped name. -/
theorem registerLayerSpec_eq (s : BridgeState) (name : String) :
    registerLayerSpec s name =
      .ok { s with catalog :=
        ⟨pySet s.catalog.functions (pyStrip ("memory.fetch_" ++ name)) (fetchSpec name)⟩ } := by
  have hname : pyStrip ("memory.fetch_" ++ name) ≠ "" := pyStrip_fetch_ne_empty name
  have hR : 'R' ∈ ("Retrieve stored entries from the '" ++ name ++ "' memory layer.").data := by
    rw [String.data_append, String.data_append]
    exact List.mem_append.mpr (Or.inl (List.mem_append.mpr (Or.inl (by decide))))
  have hdesc : pyStrip ("Retrieve stored entries from the '" ++ name ++ "' memory layer.") ≠ "" :=
    pyStrip_ne_empty_of_mem (by decide) hR
  unfold registerLayerSpec FunctionSpec.make McpCatalog.register
  rw [if_neg hname, if_neg hdesc]
  simp [fetchSpec, Bind.bind, Except.bind, dictContains]

/-- `register_layer` on an already-present name returns the stored layer and
leaves the state untouched. -/
theorem registerLayer_present {s : BridgeState} {n : String} {l : MemoryLayer}
    (hn : pyStrip n ≠ "") (hget : pyGet s.layers n = some l) :
    MemoryBridge.registerLayer s n = .ok (l, s) := by
  unfold MemoryBridge.registerLayer
  rw [if_neg hn, hget]

/-- `register_layer` on an absent name creates the layer and registers its
catalog spec. -/
theorem registerLayer_absent {s : BridgeState} {n : String}
    (hn : pyStrip n ≠ "") (hget : pyGet s.layers n = none) :
    MemoryBridge.registerLayer s n =
      .ok (⟨n, []⟩,
        { s with
            layers := pySet s.layers n ⟨n, []⟩
            catalog :=
              ⟨pySet s.catalog.functions (pyStrip ("memory.fetch_" ++ n)) (fetchSpec n)⟩ }) := by
  unfold MemoryBridge.registerLayer
  rw [if_neg hn, hget]
  rw [show ({ s with layers := pySet s.layers n ⟨n, []⟩ } : BridgeState).catalog = s.catalog from rfl] at *
  simp [Bind.bind, Except.bind, registerLayerSpec_eq]

/-- `register_layer` on an empty/whitespace-only name raises. -/
theorem registerLayer_empty {s : BridgeState} {n : String} (hn : pyStrip n = "") :
    MemoryBridge.registerLayer s n = .error "Layer name cannot be empty." := by
  unfold MemoryBridge.registerLayer
  rw [if_pos hn]

theorem dictContains_pySet {β : Type} (m : List (String × β)) (k' k : String) (v : β) :
    dictContains (pySet m k' v) k = (dictContains m k || decide (k' = k)) := by
  induction m with
  | nil => simp [pySet, dictContains]
  | cons p rest ih =>
    by_cases hp : p.1 = k'
    · by_cases hpk : p.1 = k
      · simp [pySet, hp, dictContains_cons, hp ▸ hpk]
      · have : ¬(k' = k) := fun h => hpk (hp.trans h)
        simp [pySet, hp, dictContains_cons, hpk, this]
    · simp [pySet, hp, dictContains_cons, ih]
      by_cases hpk : p.1 = k <;> simp [hpk, Bool.or_assoc]

theorem dictContains_append_single {β : Type} (m : List (String × β)) (k0 k : String)
    (v : β) :
    dictContains (m ++ [(k0, v)]) k = (dictContains m k || decide (k0 = k)) := by
  induction m with
  | nil => simp [dictContains]
  | cons p rest ih =>
    simp [dictContains_cons, ih, Bool.or_assoc]

/-- Each pair of `pySet`'s output is the new pair or an old member. -/
theorem mem_pySet_cases {β : Type} {m : List (String × β)} {k : String} {v : β}
    {q : String × β} (hq : q ∈ pySet m k v) : q = (k, v) ∨ q ∈ m := by
  induction m with
  | nil => simp [pySet] at hq; exact Or.inl hq
  | cons p rest ih =>
    by_cases hp : p.1 = k
    · simp [pySet, hp] at hq
      rcases hq with h | h
      · exact Or.inl (by rw [h])
      · exact Or.inr (List.mem_cons.mpr (Or.inr h))
    · simp [pySet, hp] at hq
      rcases hq with h | h
      · exact Or.inr (List.mem_cons.mpr (Or.inl (by rw [h])))
      · rcases ih h with h1 | h1
        · exact Or.inl h1
        · exact Or.inr (List.mem_cons.mpr (Or.inr h1))

theorem pyGet_mem {β : Type} {m : List (String × β)} {k : String} {v : β}
    (h : pyGet m k = some v) : (k, v) ∈ m := by
  induction m with
  | nil => simp [pyGet] at h
  | cons p rest ih =>
    by_cases hp : p.1 = k
    · simp [pyGet, hp] at h
      exact List.mem_cons.mpr (Or.inl (by rw [← hp, ← h]))
    · simp [pyGet, hp] at h
      exact List.mem_cons.mpr (Or.inr (ih h))

/-- A fusion step never touches the catalog. -/
theorem fusionStep_catalog {s : BridgeState} {i : Nat} {e : MemoryEntry}
    {s' : BridgeState} (h : fusionStep s i e = .ok s') : s'.catalog = s.catalog := by
  unfold fusionStep at h
  cases hadd : MemoryLayer.add (pySetdefault s.layers e.layer ⟨e.layer, []⟩).2 e with
  | error msg => simp [hadd, Bind.bind, Except.bind] at h
  | ok layer' =>
    simp [hadd, Bind.bind, Except.bind] at h
    rw [← h]

/-- A fusion step's effect on layer keys: it adds (at most) the entry's
layer. -/
theorem fusionStep_contains {s : BridgeState} {i : Nat} {e : MemoryEntry}
    {s' : BridgeState} (h : fusionStep s i e = .ok s') (k : String) :
    dictContains s'.layers k = (dictContains s.layers k || decide (e.layer = k)) := by
  unfold fusionStep at h
  cases hadd : MemoryLayer.add (pySetdefault s.layers e.layer ⟨e.layer, []⟩).2 e with
  | error msg => simp [hadd, Bind.bind, Except.bind] at h
  | ok layer' =>
    simp [hadd, Bind.bind, Except.bind] at h
    have hl : s'.layers = pySet (pySetdefault s.layers e.layer ⟨e.layer, []⟩).1 e.layer layer' := by
      rw [← h]
    rw [hl, dictContains_pySet]
    unfold pySetdefault
    cases hget : pyGet s.layers e.layer with
    | some v => simp
    | none =>
      simp [dictContains_append_single]

/-- Folding fusion steps over one node's updates never touches the catalog. -/
theorem foldl_fusion_catalog (es : List MemoryEntry) (i : Nat) :
    ∀ s s' : BridgeState,
      es.foldlM (fun s e => fusionStep s i e) s = .ok s' → s'.catalog = s.catalog := by
  induction es with
  | nil =>
    intro s s' h
    simp [List.foldlM_nil, pure, Except.pure] at h
    rw [← h]
  | cons e rest ih =>
    intro s s' h
    rw [List.foldlM_cons] at h
    cases hstep : fusionStep s i e with
    | error msg => simp [hstep, Bind.bind, Except.bind] at h
    | ok s1 =>
      simp [hstep, Bind.bind, Except.bind] at h
      rw [ih s1 s' h, fusionStep_catalog hstep]

/-- `FusionLoop.cycle` never touches the catalog. -/
theorem cycle_catalog (nodes : List IntelligenceNode) :
    ∀ s s' : BridgeState,
      FusionLoop.cycle s nodes = .ok s' → s'.catalog = s.catalog := by
  induction nodes with
  | nil =>
    intro s s' h
    simp [FusionLoop.cycle, List.foldlM_nil, pure, Except.pure] at h
    rw [← h]
  | cons node rest ih =>
    intro s s' h
    rw [FusionLoop.cycle, List.foldlM_cons] at h
    cases hstep : node.updates.foldlM (fun s e => fusionStep s node.id e) s with
    | error msg => simp [hstep, Bind.bind, Except.bind] at h
    | ok s1 =>
      simp [hstep, Bind.bind, Except.bind] at h
      have : FusionLoop.cycle s1 rest = .ok s' := h
      rw [ih s1 s' this, foldl_fusion_catalog node.updates node.id s s1 hstep]

/-- Folding fusion steps whose entries all target existing layers leaves the
key set unchanged. -/
theorem foldl_fusion_contains (es : List MemoryEntry) (i : Nat) :
    ∀ s s' : BridgeState,
      es.foldlM (fun s e => fusionStep s i e) s = .ok s' →
      (∀ e ∈ es, dictContains s.layers e.layer = true) →
      ∀ k, dictContains s'.layers k = dictContains s.layers k := by
  induction es with
  | nil =>
    intro s s' h _ k
    simp [List.foldlM_nil, pure, Except.pure] at h
    rw [← h]
  | cons e rest ih =>
    intro s s' h hall k
    rw [List.foldlM_cons] at h
    cases hstep : fusionStep s i e with
    | error msg => simp [hstep, Bind.bind, Except.bind] at h
    | ok s1 =>
      simp [hstep, Bind.bind, Except.bind] at h
      have hkey : ∀ k, dictContains s1.layers k = dictContains s.layers k := by
        intro k
        rw [fusionStep_contains hstep k]
        by_cases hek : e.layer = k
        · rw [← hek]
          simp [hall e (List.mem_cons_self e rest)]
        · simp [hek]
      have hall1 : ∀ x ∈ rest, dictContains s1.layers x.layer = true := by
        intro x hx
        rw [hkey]
        exact hall x (List.mem_cons_of_mem e hx)
      rw [ih s1 s' h hall1 k, hkey]

/-- A full cycle whose entries all target existing layers leaves the key set
unchanged. -/
theorem cycle_contains (nodes : List IntelligenceNode) :
    ∀ s s' : BridgeState,
      FusionLoop.cycle s nodes = .ok s' →
      (∀ node ∈ nodes, ∀ e ∈ node.updates, dictContains s.layers e.layer = true) →
      ∀ k, dictContains s'.layers k = dictContains s.layers k := by
  induction nodes with
  | nil =>
    intro s s' h _ k
    simp [FusionLoop.cycle, List.foldlM_nil, pure, Except.pure] at h
    rw [← h]
  | cons node rest ih =>
    intro s s' h hall k
    rw [FusionLoop.cycle, List.foldlM_cons] at h
    cases hstep : node.updates.foldlM (fun s e => fusionStep s node.id e) s with
    | error msg => simp [hstep, Bind.bind, Except.bind] at h
    | ok s1 =>
      simp [hstep, Bind.bind, Except.bind] at h
      have hkey := foldl_fusion_contains node.updates node.id s s1 hstep
        (fun e he => hall node (List.mem_cons_self node rest) e he)
      have hall1 : ∀ nd ∈ rest, ∀ e ∈ nd.updates, dictContains s1.layers e.layer = true := by
        intro nd hnd e he
        rw [hkey]
        exact hall nd (List.mem_cons_of_mem node hnd) e he
      have : FusionLoop.cycle s1 rest = .ok s' := h
      rw [ih s1 s' this hall1 k, hkey k]

/-- `register_layer` preserves the synchronization invariant. -/
theorem registerLayer_layerSynced {s : BridgeState} {n : String} {l : MemoryLayer}
    {s' : BridgeState} (h : MemoryBridge.registerLayer s n = .ok (l, s'))
    (hinv : layerSynced s) : layerSynced s' := by
  by_cases hn : pyStrip n = ""
  · rw [registerLayer_empty hn] at h
    exact absurd h (by simp)
  cases hget : pyGet s.layers n with
  | some l0 =>
    rw [registerLayer_present hn hget] at h
    have : s' = s := by
      have := h
      simp at this
      exact this.2.symm
    rw [this]
    exact hinv
  | none =>
    rw [registerLayer_absent hn hget] at h
    simp at h
    rw [← h.2]
    intro p hp
    rcases mem_pySet_cases hp with hnew | hold
    · rw [hnew]
      exact dictContains_pySet_self _ _ _
    · exact dictContains_pySet_mono _ _ _ (hinv p hold)

/-- A fusion cycle without lazy layer creation preserves the invariant. -/
theorem cycle_layerSynced {s : BridgeState} {nodes : List IntelligenceNode}
    {s' : BridgeState} (h : FusionLoop.cycle s nodes = .ok s')
    (hpre : ∀ node ∈ nodes, ∀ e ∈ node.updates, dictContains s.layers e.layer = true)
    (hinv : layerSynced s) : layerSynced s' := by
  intro p hp
  have hkeys := cycle_contains nodes s s' h hpre
  have hcat := cycle_catalog nodes s s' h
  have hk : dictContains s.layers p.1 = true := by
    rw [← hkeys p.1]
    exact (dictContains_eq_mem_keys _ _).mpr (List.mem_map.mpr ⟨p, hp, rfl⟩)
  rcases List.mem_map.mp ((dictContains_eq_mem_keys _ _).mp hk) with ⟨q, hq, hq1⟩
  rw [hcat, ← hq1]
  exact hinv q hq

/-- Claim C2 (amended): over states reachable by `register_layer` and fusion
cycles that only reference already-existing layers, every layer name in the
layer map has its auto-generated catalog spec, stored under the stripped name
`("memory.fetch_" + name).strip()`. Layers created lazily by
`FusionLoop.cycle` are excluded: that path never registers a spec (see the
counterexample). -/
theorem c2_catalog_synced_without_lazy_fusion_layers (s : BridgeState)
    (h : ReachableSynced s) : layerSynced s := by
  induction h with
  | fresh => intro p hp; simp [freshBridge] at hp
  | register s n l s' _ hreg ih => exact registerLayer_layerSynced hreg ih
  | sync s nodes s' _ hpre hcyc ih => exact cycle_layerSynced hcyc hpre ih

/-- Claim C2 counterexample: after a fusion cycle lazily creates layer
`"alpha"`, the layer map contains `"alpha"` but the catalog holds no spec
named `memory.fetch_alpha` — the lazy-creation path never registers one. -/
theorem c2_counterexample :
    Reachable c2CexState ∧
    dictContains c2CexState.layers "alpha" = true ∧
    dictContains c2CexState.catalog.functions "memory.fetch_alpha" = false := by
  refine ⟨Reachable.sync freshBridge [⟨0, [⟨"alpha", "c", "s", ⟨some 0, 0⟩⟩]⟩] c2CexState
      Reachable.fresh rfl, ?_, ?_⟩
  · rfl
  · rfl

/-- Witness for C2 on the state reached by one explicit registration. -/
theorem c2_witness : layerSynced c2WitnessState :=
  c2_catalog_synced_without_lazy_fusion_layers c2WitnessState
    (ReachableSynced.register freshBridge "alpha" ⟨"alpha", []⟩ c2WitnessState
      ReachableSynced.fresh rfl)

/-- `register_layer` never touches the witness network or node inboxes. -/
theorem registerLayer_frame {s : BridgeState} {n : String} {l : MemoryLayer}
    {s' : BridgeState} (h : MemoryBridge.registerLayer s n = .ok (l, s')) :
    s'.witnesses = s.witnesses ∧ s'.inbox = s.inbox := by
  by_cases hn : pyStrip n = ""
  · rw [registerLayer_empty hn] at h
    exact absurd h (by simp)
  cases hget : pyGet s.layers n with
  | some l0 =>
    rw [registerLayer_present hn hget] at h
    simp at h
    rw [← h.2]
    exact ⟨rfl, rfl⟩
  | none =>
    rw [registerLayer_absent hn hget] at h
    simp at h
    rw [← h.2]
    exact ⟨rfl, rfl⟩

/-- The ingestion loop never touches the witness network or node inboxes,
even when it stops at a raised exception. -/
theorem ingestEntries_frame (es : List MemoryEntry) :
    ∀ (s : BridgeState) (counts : List (String × Nat)) (alerts : List String),
      ((ingestEntries s counts alerts es).1.witnesses = s.witnesses) ∧
      ((ingestEntries s counts alerts es).1.inbox = s.inbox) := by
  induction es with
  | nil => intro s counts alerts; exact ⟨rfl, rfl⟩
  | cons e rest ih =>
    intro s counts alerts
    cases hreg : MemoryBridge.registerLayer s e.layer with
    | error msg => simp [ingestEntries, hreg]
    | ok pair =>
      obtain ⟨layer, s1⟩ := pair
      have hfr := registerLayer_frame hreg
      cases hadd : layer.add e with
      | error msg =>
        simp [ingestEntries, hreg, hadd]
        exact hfr
      | ok layer' =>
        simp only [ingestEntries, hreg, hadd]
        have hrec := ih { s1 with layers := pySet s1.layers e.layer layer' }
          (pySet counts e.layer (pyGetD counts e.layer 0 + 1))
          (if e.layer = "ingestion_alerts" then alerts ++ [e.content] else alerts)
        rw [hrec.1, hrec.2]
        exact hfr

/-- The connector loop never touches the witness network or node inboxes. -/
theorem runConnectors_frame (connectors : List Connector) :
    ∀ (s : BridgeState) (audits : List ConnectorAudit),
      ((runConnectors s audits connectors).1.witnesses = s.witnesses) ∧
      ((runConnectors s audits connectors).1.inbox = s.inbox) := by
  induction connectors with
  | nil => intro s audits; exact ⟨rfl, rfl⟩
  | cons c rest ih =>
    intro s audits
    cases hg : c.gather with
    | error msg => simp [runConnectors, hg]
    | ok entries =>
      have hing := ingestEntries_frame entries s [] []
      cases hres : ingestEntries s [] [] entries with
      | mk s' r =>
        rw [hres] at hing
        cases r with
        | error msg =>
          simp [runConnectors, hg, hres]
          exact hing
        | ok pr =>
          obtain ⟨counts, alerts⟩ := pr
          simp only [runConnectors, hg, hres]
          have hrec := ih s' (audits ++ [⟨c.name, entries.length, counts, alerts⟩])
          rw [hrec.1, hrec.2]
          exact hing

/-- Claim C8: `run_cycle` never interacts with the witness network — for
every initial bridge state and connector list (including runs aborted by a
raising `gather()`), the witness log, the subscriber list, and every node
inbox are exactly what they were before the call. -/
theorem c8_run_cycle_witness_frame (now : Datetime) (s : BridgeState)
    (connectors : List Connector) :
    ((runCycle now s connectors).1).witnesses = s.witnesses ∧
    ((runCycle now s connectors).1).inbox = s.inbox := by
  have h := runConnectors_frame connectors s []
  cases hres : runConnectors s [] connectors with
  | mk s' r =>
    rw [hres] at h
    cases r with
    | error msg => simpa [runCycle, hres] using h
    | ok audits => simpa [runCycle, hres] using h

theorem pySet_pySet {β : Type} (m : List (String × β)) (k : String) (v v' : β) :
    pySet (pySet m k v) k v' = pySet m k v' := by
  induction m with
  | nil => simp [pySet]
  | cons p rest ih =>
    by_cases hp : p.1 = k <;> simp [pySet, hp, ih]

theorem pyGetD_pySet_self {β : Type} (m : List (String × β)) (k : String) (v d : β) :
    pyGetD (pySet m k v) k d = v := by
  simp [pyGetD, pyGet_pySet_self]

theorem pyGetD_pySet_ne {β : Type} (m : List (String × β)) {k n : String} (v d : β)
    (h : k ≠ n) : pyGetD (pySet m k v) n d = pyGetD m n d := by
  simp [pyGetD, pyGet_pySet_ne m v h]

/-- One pass of `run_cycle`'s entry loop: `register_layer` then `add`, with
the resulting layer written back; the layer map stays well-formed and `n`'s
entries grow by `e` exactly on `e`'s own layer. -/
theorem ingest_step {s : BridgeState} {e : MemoryEntry} (hwf : layersWF s)
    (hne : pyStrip e.layer ≠ "") :
    ∃ layer s1 layer',
      MemoryBridge.registerLayer s e.layer = .ok (layer, s1) ∧
      layer.add e = .ok layer' ∧
      layersWF { s1 with layers := pySet s1.layers e.layer layer' } ∧
      (∀ n, entriesOf { s1 with layers := pySet s1.layers e.layer layer' } n =
        entriesOf s n ++ if e.layer = n then [e] else []) := by
  cases hget : pyGet s.layers e.layer with
  | some layer =>
    have hlname : layer.name = e.layer := hwf (e.layer, layer) (pyGet_mem hget)
    refine ⟨layer, s, { layer with entries := layer.entries ++ [e] },
      registerLayer_present hne hget, ?_, ?_, ?_⟩
    · simp [MemoryLayer.add, hlname]
    · intro p hp
      rcases mem_pySet_cases hp with hnew | hold
      · rw [hnew]
        exact hlname
      · exact hwf p hold
    · intro n
      by_cases hn : e.layer = n
      · subst hn
        simp [entriesOf, pyGet_pySet_self, hget]
      · simp [entriesOf, pyGet_pySet_ne _ _ hn, hn]
  | none =>
    refine ⟨⟨e.layer, []⟩,
      { s with
          layers := pySet s.layers e.layer ⟨e.layer, []⟩
          catalog :=
            ⟨pySet s.catalog.functions
              (pyStrip ("memory.fetch_" ++ e.layer)) (fetchSpec e.layer)⟩ },
      ⟨e.layer, [e]⟩, registerLayer_absent hne hget, ?_, ?_, ?_⟩
    · simp [MemoryLayer.add]
    · intro p hp
      simp only [pySet_pySet] at hp
      rcases mem_pySet_cases hp with hnew | hold
      · rw [hnew]
      · exact hwf p hold
    · intro n
      simp only [pySet_pySet]
      by_cases hn : e.layer = n
      · subst hn
        simp [entriesOf, pyGet_pySet_self, hget]
      · simp [entriesOf, pyGet_pySet_ne _ _ hn, hn]

/-- The entry loop of `run_cycle` on ingestible entries: it succeeds, keeps
the layer map well-formed, extends the alert accumulator with exactly the
`ingestion_alerts` contents in order, bumps each layer count by the number of
matching entries, and appends each entry to its own layer in order. -/
theorem ingestEntries_ok (es : List MemoryEntry) :
    ∀ (s : BridgeState) (counts : List (String × Nat)) (alerts : List String),
      layersWF s → (∀ e ∈ es, pyStrip e.layer ≠ "") →
      ∃ s' counts' alerts',
        ingestEntries s counts alerts es = (s', .ok (counts', alerts')) ∧
        layersWF s' ∧
        alerts' = alerts ++
          (es.filter (fun e => e.layer = "ingestion_alerts")).map (fun e => e.content) ∧
        (∀ n, pyGetD counts' n 0 =
          pyGetD counts n 0 + (es.filter (fun e => e.layer = n)).length) ∧
        (∀ n, entriesOf s' n = entriesOf s n ++ es.filter (fun e => e.layer = n)) := by
  induction es with
  | nil =>
    intro s counts alerts hwf _
    exact ⟨s, counts, alerts, rfl, hwf, by simp, by simp, by simp⟩
  | cons e rest ih =>
    intro s counts alerts hwf hok
    obtain ⟨layer, s1, layer', hreg, hadd, hwf2, hent⟩ :=
      ingest_step hwf (hok e (List.mem_cons_self e rest))
    obtain ⟨s', counts', alerts', hrec, hwf', halerts, hcounts, hentries⟩ :=
      ih { s1 with layers := pySet s1.layers e.layer layer' }
        (pySet counts e.layer (pyGetD counts e.layer 0 + 1))
        (if e.layer = "ingestion_alerts" then alerts ++ [e.content] else alerts)
        hwf2 (fun x hx => hok x (List.mem_cons_of_mem e hx))
    refine ⟨s', counts', alerts', ?_, hwf', ?_, ?_, ?_⟩
    · simp only [ingestEntries, hreg, hadd]
      exact hrec
    · rw [halerts, List.filter_cons]
      by_cases hal : e.layer = "ingestion_alerts"
      · simp [hal, List.map_cons, List.append_assoc]
      · simp [hal]
    · intro n
      rw [hcounts n, List.filter_cons]
      by_cases hn : e.layer = n
      · subst hn
        rw [pyGetD_pySet_self]
        simp [Nat.add_comm, Nat.add_assoc, Nat.add_left_comm]
      · rw [pyGetD_pySet_ne _ _ _ hn]
        simp [hn]
    · intro n
      rw [hentries n, hent n, List.filter_cons]
      by_cases hn : e.layer = n
      · subst hn
        simp [List.append_assoc]
      · simp [hn]

/-- Running a prefix of successfully-gathering connectors reduces to running
the remaining connectors from the accumulated state, with one audit per
prefix connector carrying its real name and output count. -/
theorem runConnectors_append_ok (goods : List (String × List MemoryEntry)) :
    ∀ (cs : List Connector) (s : BridgeState) (audits : List ConnectorAudit),
      layersWF s →
      (∀ p ∈ goods, ∀ e ∈ p.2, pyStrip e.layer ≠ "") →
      ∃ s' auditsG,
        runConnectors s audits (goods.map mkConn ++ cs) =
          runConnectors s' (audits ++ auditsG) cs ∧
        layersWF s' ∧
        auditsG.map (fun a => a.name) = goods.map (fun p => p.1) ∧
        auditsG.map (fun a => a.produced) = goods.map (fun p => p.2.length) := by
  induction goods with
  | nil =>
    intro cs s audits hwf _
    exact ⟨s, [], by simp, hwf, rfl, rfl⟩
  | cons p ps ih =>
    intro cs s audits hwf hok
    obtain ⟨s1, counts, alerts, hing, hwf1, _, _, _⟩ :=
      ingestEntries_ok p.2 s [] [] hwf (hok p (List.mem_cons_self p ps))
    obtain ⟨s', auditsG', hrun, hwf', hnames, hprod⟩ :=
      ih cs s1 (audits ++ [⟨p.1, p.2.length, counts, alerts⟩]) hwf1
        (fun q hq => hok q (List.mem_cons_of_mem p hq))
    refine ⟨s', ⟨p.1, p.2.length, counts, alerts⟩ :: auditsG', ?_, hwf', ?_, ?_⟩
    · simp only [List.map_cons, List.cons_append, runConnectors, mkConn, hing,
        List.append_eq]
      rw [hrun, List.append_assoc]
      rfl
    · simp [hnames]
    · simp [hprod]

/-- Claim C1 (amended): `run_cycle` does NOT catch a connector's `gather()`
exception — the exception propagates, the run aborts with no Audit Report,
and the connectors after the failing one never run (entries already ingested
by earlier connectors stay in the bridge). Only when every `gather()`
succeeds does `run_cycle` return a report, and then it holds one audit per
connector with its real name and output count. -/
theorem c1_run_cycle_gather_error (now : Datetime) (s : BridgeState)
    (goods : List (String × List MemoryEntry)) (hwf : layersWF s)
    (hok : ∀ p ∈ goods, ∀ e ∈ p.2, pyStrip e.layer ≠ "") :
    (∀ (badName msg : String) (rest : List Connector),
      (runCycle now s (goods.map mkConn ++ ⟨badName, .error msg⟩ :: rest)).2 =
        .error msg) ∧
    (∃ report, (runCycle now s (goods.map mkConn)).2 = .ok report ∧
      report.connectors.map (fun a => a.name) = goods.map (fun p => p.1) ∧
      report.connectors.map (fun a => a.produced) = goods.map (fun p => p.2.length)) := by
  constructor
  · intro badName msg rest
    obtain ⟨s', auditsG, hrun, _, _, _⟩ :=
      runConnectors_append_ok goods (⟨badName, .error msg⟩ :: rest) s [] hwf hok
    rw [runCycle, hrun]
    simp [runConnectors]
  · obtain ⟨s', auditsG, hrun, _, hnames, hprod⟩ :=
      runConnectors_append_ok goods [] s [] hwf hok
    simp only [List.append_nil, List.nil_append, runConnectors] at hrun
    refine ⟨⟨now, auditsG⟩, ?_, hnames, hprod⟩
    rw [runCycle, hrun]

/-- Claim C9: entries on the sentinel `ingestion_alerts` layer are ingested
like any other entry — stored in the (auto-created) `ingestion_alerts` layer
in order and counted in `produced` and `layer_counts` — and their contents
are additionally collected, in entry order, as the connector's alerts. -/
theorem c9_ingestion_alerts_handling (now : Datetime) (s : BridgeState)
    (nm : String) (es : List MemoryEntry) (hwf : layersWF s)
    (hok : ∀ e ∈ es, pyStrip e.layer ≠ "") :
    ∃ s' counts alerts,
      runCycle now s [⟨nm, .ok es⟩] =
        (s', .ok ⟨now, [⟨nm, es.length, counts, alerts⟩]⟩) ∧
      alerts =
        (es.filter (fun e => e.layer = "ingestion_alerts")).map (fun e => e.content) ∧
      pyGetD counts "ingestion_alerts" 0 =
        (es.filter (fun e => e.layer = "ingestion_alerts")).length ∧
      entriesOf s' "ingestion_alerts" =
        entriesOf s "ingestion_alerts" ++
          es.filter (fun e => e.layer = "ingestion_alerts") := by
  obtain ⟨s', counts, alerts, hing, _, halerts, hcounts, hentries⟩ :=
    ingestEntries_ok es s [] [] hwf hok
  refine ⟨s', counts, alerts, ?_, by simpa using halerts, ?_,
    hentries "ingestion_alerts"⟩
  · rw [runCycle]
    simp only [runConnectors, hing]
    rfl
  · rw [hcounts "ingestion_alerts"]
    simp [pyGetD, pyGet]

/-- Claim C1 counterexample: with three connectors of which the second raises
in `gather()`, `run_cycle` returns no Audit Report at all — the exception
propagates (`.error "boom"`), the first connector's entries are already in
the bridge, and the third connector never runs. -/
theorem c1_counterexample :
    (runCycle ⟨some 0, 0⟩ freshBridge
      [⟨"GOOD", .ok [⟨"legal_evidence", "doc", "src", ⟨some 0, 0⟩⟩]⟩,
       ⟨"BAD", .error "boom"⟩,
       ⟨"LATE", .ok [⟨"late_layer", "x", "src", ⟨some 0, 0⟩⟩]⟩]).2 = .error "boom" ∧
    entriesOf (runCycle ⟨some 0, 0⟩ freshBridge
      [⟨"GOOD", .ok [⟨"legal_evidence", "doc", "src", ⟨some 0, 0⟩⟩]⟩,
       ⟨"BAD", .error "boom"⟩,
       ⟨"LATE", .ok [⟨"late_layer", "x", "src", ⟨some 0, 0⟩⟩]⟩]).1 "legal_evidence" =
      [⟨"legal_evidence", "doc", "src", ⟨some 0, 0⟩⟩] ∧
    entriesOf (runCycle ⟨some 0, 0⟩ freshBridge
      [⟨"GOOD", .ok [⟨"legal_evidence", "doc", "src", ⟨some 0, 0⟩⟩]⟩,
       ⟨"BAD", .error "boom"⟩,
       ⟨"LATE", .ok [⟨"late_layer", "x", "src", ⟨some 0, 0⟩⟩]⟩]).1 "late_layer" = [] := by
  refine ⟨rfl, rfl, rfl⟩

/-- Witness for C1 on a concrete run with one good and one raising
connector. -/
theorem c1_witness :
    (runCycle ⟨some 0, 0⟩ freshBridge
      ([("G", [⟨"legal_evidence", "d", "s", ⟨some 0, 0⟩⟩])].map mkConn ++
        ⟨"B", .error "boom"⟩ :: [])).2 = .error "boom" :=
  (c1_run_cycle_gather_error ⟨some 0, 0⟩ freshBridge
    [("G", [⟨"legal_evidence", "d", "s", ⟨some 0, 0⟩⟩])]
    (fun p hp => absurd hp (by simp [freshBridge]))
    (by decide)).1 "B" "boom" []

/-- Witness for C9 on one connector that reports a single alert entry. -/
theorem c9_witness :
    ∃ s' counts alerts,
      runCycle ⟨some 0, 7⟩ freshBridge
        [⟨"ALERT", .ok [⟨"ingestion_alerts", "dependency missing", "src", ⟨some 0, 1⟩⟩]⟩] =
        (s', .ok ⟨⟨some 0, 7⟩,
          [⟨"ALERT",
            [(⟨"ingestion_alerts", "dependency missing", "src", ⟨some 0, 1⟩⟩ : MemoryEntry)].length,
            counts, alerts⟩]⟩) ∧
      alerts =
        ([(⟨"ingestion_alerts", "dependency missing", "src", ⟨some 0, 1⟩⟩ : MemoryEntry)].filter
          (fun e => e.layer = "ingestion_alerts")).map (fun e => e.content) ∧
      pyGetD counts "ingestion_alerts" 0 =
        ([(⟨"ingestion_alerts", "dependency missing", "src", ⟨some 0, 1⟩⟩ : MemoryEntry)].filter
          (fun e => e.layer = "ingestion_alerts")).length ∧
      entriesOf s' "ingestion_alerts" =
        entriesOf freshBridge "ingestion_alerts" ++
          [(⟨"ingestion_alerts", "dependency missing", "src", ⟨some 0, 1⟩⟩ : MemoryEntry)].filter
            (fun e => e.layer = "ingestion_alerts") :=
  c9_ingestion_alerts_handling ⟨some 0, 7⟩ freshBridge "ALERT"
    [⟨"ingestion_alerts", "dependency missing", "src", ⟨some 0, 1⟩⟩]
    (fun p hp => absurd hp (by simp [freshBridge]))
    (by decide)

/-- Claim C5 (amended): `register_layer` raises on an empty/whitespace-only
name; on a fresh name `n` two calls return the identical layer and state,
and the catalog then holds exactly one spec, stored under the STRIPPED name
`("memory.fetch_" + n).strip()` — equal to `memory.fetch_{n}` whenever `n`
carries no trailing whitespace (the strip is forced by the counterexample). -/
theorem c5_register_layer_amended (s : BridgeState) (n : String)
    (hwf : (s.catalog.functions.map Prod.fst).Nodup)
    (hn : pyStrip n ≠ "") (habs : pyGet s.layers n = none) :
    (∀ m, pyStrip m = "" →
      MemoryBridge.registerLayer s m = .error "Layer name cannot be empty.") ∧
    ∃ l s1, MemoryBridge.registerLayer s n = .ok (l, s1) ∧
      MemoryBridge.registerLayer s1 n = .ok (l, s1) ∧
      (s1.catalog.functions.filter
        (fun p => p.1 = pyStrip ("memory.fetch_" ++ n))).length = 1 := by
  constructor
  · intro m hm
    exact registerLayer_empty hm
  · refine ⟨⟨n, []⟩, _, registerLayer_absent hn habs, ?_, ?_⟩
    · apply registerLayer_present hn
      exact pyGet_pySet_self _ _ _
    · exact count_pySet_self _ _ _ hwf

/-- Claim C5 counterexample: for the layer name `"evidence "` (trailing
blank) the catalog holds no spec literally named `memory.fetch_evidence `
— the spec was stored under the stripped name `memory.fetch_evidence`. -/
theorem c5_counterexample :
    dictContains c5CexState.layers "evidence " = true ∧
    (c5CexState.catalog.functions.filter
      (fun p => p.1 = "memory.fetch_evidence ")).length = 0 ∧
    dictContains c5CexState.catalog.functions "memory.fetch_evidence" = true := by
  refine ⟨rfl, rfl, rfl⟩

/-- Witness for C5 registering the fresh name `"notes"` twice. -/
theorem c5_witness :
    (∀ m, pyStrip m = "" →
      MemoryBridge.registerLayer freshBridge m = .error "Layer name cannot be empty.") ∧
    ∃ l s1, MemoryBridge.registerLayer freshBridge "notes" = .ok (l, s1) ∧
      MemoryBridge.registerLayer s1 "notes" = .ok (l, s1) ∧
      (s1.catalog.functions.filter
        (fun p => p.1 = pyStrip ("memory.fetch_" ++ "notes"))).length = 1 :=
  c5_register_layer_amended freshBridge "notes" (by simp [freshBridge]) (by decide) rfl
